import Mathlib

/-!
Shallow embedding of src/amm/uniswap_v2/batch_request/mod.rs: batched
retrieval of Uniswap V2 pool state.  ABI tokens, the record populator and
the three batch operations (pair discovery, bulk populate, single populate)
are translated from the Rust source.  The network transport (ethers
Middleware deploy / call_raw) and the ABI byte decoder are external
collaborators and are modelled as abstract function parameters; Rust panics
(slice indexing, Vec indexing `expect`, U256::as_u32 / as_u128 overflow) are
modelled explicitly as a distinguished outcome.
-/

namespace AmmsBatch


/-- An H160 address, modelled as a natural number; `0` is the sentinel. -/
abbrev Address := Nat

/-- ABI token values (`ethers::abi::Token`), restricted to the constructors
this module constructs or inspects; `boolean` stands in for every other
token kind, which this module never matches. -/
inductive Token where
  | address (a : Address)
  | uint (v : Nat)
  | boolean (b : Bool)
  | tuple (ts : List Token)
  | array (ts : List Token)

/-- `Token::into_address`: matches only the address constructor. -/
def Token.into_address : Token → Option Address
  | .address a => some a
  | _ => none

/-- `Token::into_uint`: matches only the uint constructor. -/
def Token.into_uint : Token → Option Nat
  | .uint v => some v
  | _ => none

/-- `Token::into_array`: matches only the array constructor. -/
def Token.into_array : Token → Option (List Token)
  | .array ts => some ts
  | _ => none

/-- `Token::into_tuple`: matches only the tuple constructor. -/
def Token.into_tuple : Token → Option (List Token)
  | .tuple ts => some ts
  | _ => none

/-- ABI parameter types (`ethers::abi::ParamType`), the constructors used by
the two schemas in the source. -/
inductive ParamType where
  | address
  | uint (bits : Nat)
  | array (t : ParamType)
  | tuple (ts : List ParamType)

/-- Modelled from the spec: the error enum `AMMError` lives in the repository
outside src/ (spec section 7); the variant payloads follow the constructor
calls in this file: `ContractError(op, address, e)` is the staging error,
`ProviderError(op, address, e)` the delivery error, `abiError` the
`From`-converted ABI decode error, and `BatchRequestError(address)` the
missing-record error of the single path.  Underlying transport and ABI
errors are abstracted as numeric codes. -/
inductive AMMError where
  | contractError (op : String) (addr : Address) (e : Nat)
  | providerError (op : String) (addr : Address) (e : Nat)
  | abiError (e : Nat)
  | batchRequestError (addr : Address)
  deriving DecidableEq, Repr

/-- The operation name carried by a staging or delivery error, when any. -/
def errorOpName : AMMError → Option String
  | .contractError op _ _ => some op
  | .providerError op _ _ => some op
  | .abiError _ => none
  | .batchRequestError _ => none

/-- The representative address carried by an error, when any. -/
def errorAddress : AMMError → Option Address
  | .contractError _ a _ => some a
  | .providerError _ a _ => some a
  | .abiError _ => none
  | .batchRequestError a => some a

/-- Modelled from the spec: the pool record (spec section 3) lives in the
repository outside src/; the fields are exactly those this file reads or
writes: the address, the identifier pair, the two decimal precisions (u8)
and the two reserves (u128 in the source, widened from 112 bits). -/
structure UniswapV2Pool where
  address : Address
  token_a : Address
  token_a_decimals : Nat
  token_b : Address
  token_b_decimals : Nat
  reserve_0 : Nat
  reserve_1 : Nat
  deriving DecidableEq, Repr

/-- Modelled from the spec: the `AMM` sum type lives in the repository
outside src/; this file inspects only its `UniswapV2Pool` variant and the
address accessor, so every other variant is collapsed into an opaque
constructor carrying only the address this file can read. -/
inductive AMM where
  | uniswapV2Pool (pool : UniswapV2Pool)
  | otherVariant (addr : Address)
  deriving DecidableEq, Repr

/-- `AMM::address()`. -/
def AMM.address : AMM → Address
  | .uniswapV2Pool p => p.address
  | .otherVariant a => a

/-- Outcome of a Rust expression that can panic, can make the surrounding
Option-returning function return `None` (the `?` operator), or produces a
value. -/
inductive RRes (α : Type) where
  | panic : RRes α
  | fail : RRes α
  | ok (a : α) : RRes α
  deriving DecidableEq, Repr

/-- Sequencing of `RRes` computations: panics and early `None` returns
propagate. -/
def RRes.bind {α β : Type} : RRes α → (α → RRes β) → RRes β
  | .panic, _ => .panic
  | .fail, _ => .fail
  | .ok a, f => f a

instance : Monad RRes where
  pure := RRes.ok
  bind := RRes.bind

/-- Rust `Vec` indexing `tokens[i]`: panics when out of bounds. -/
def indexToken (tokens : List Token) (i : Nat) : RRes Token :=
  match tokens.get? i with
  | some t => .ok t
  | none => .panic

/-- The `?` operator applied to an `Option`: `None` is an early return. -/
def liftOpt {α : Type} : Option α → RRes α
  | some a => .ok a
  | none => .fail

/-- `U256::as_u32`: panics when the value does not fit in 32 bits. -/
def as_u32 (v : Nat) : RRes Nat :=
  if v < 2 ^ 32 then .ok v else .panic

/-- `U256::as_u128`: panics when the value does not fit in 128 bits. -/
def as_u128 (v : Nat) : RRes Nat :=
  if v < 2 ^ 128 then .ok v else .panic

/-- `populate_pool_data_from_tokens` (mod.rs lines 26-38): copies the six
decoded fields onto a by-value copy of the pool; `tokens[i]` indexing can
panic, each `into_address` / `into_uint` failure returns `None`, and the
`as u8` cast truncates modulo 256. -/
def populate_pool_data_from_tokens (pool : UniswapV2Pool) (tokens : List Token) :
    RRes UniswapV2Pool := do
  let token_a ← liftOpt (← indexToken tokens 0).into_address
  let ta_dec ← as_u32 (← liftOpt (← indexToken tokens 1).into_uint)
  let token_b ← liftOpt (← indexToken tokens 2).into_address
  let tb_dec ← as_u32 (← liftOpt (← indexToken tokens 3).into_uint)
  let r0 ← as_u128 (← liftOpt (← indexToken tokens 4).into_uint)
  let r1 ← as_u128 (← liftOpt (← indexToken tokens 5).into_uint)
  pure { pool with
    token_a := token_a, token_a_decimals := ta_dec % 256,
    token_b := token_b, token_b_decimals := tb_dec % 256,
    reserve_0 := r0, reserve_1 := r1 }

/-- The two ephemeral batch contracts this module deploys. -/
inductive BatchContract where
  | pairsBatchRequest
  | poolDataBatchRequest
  deriving DecidableEq, Repr

/-- The remote evaluation transport (ethers `Middleware`), abstracted: the
deploy step stages the composite query (its failure becomes the staging
error) and returns an opaque deployer handle; `call_raw` performs the one
network round trip (its failure becomes the delivery error) and returns the
raw result bytes. -/
structure Middleware where
  deploy : BatchContract → Token → Except Nat Nat
  callRaw : Nat → Except Nat (List Nat)

/-- The ABI byte decoder (`ethers::abi::decode`), abstracted as a pure
function of the declared schema and the raw bytes. -/
structure AbiDecoder where
  decode : List ParamType → List Nat → Except Nat (List Token)

/-- The schema of the pair-discovery response: one array of addresses. -/
def pairsSchema : List ParamType := [ParamType.array ParamType.address]

/-- The schema of the pool-data response: one array of 6-field tuples
(address, uint8, address, uint8, uint112, uint112). -/
def poolDataSchema : List ParamType :=
  [ParamType.array (ParamType.tuple
    [ParamType.address, ParamType.uint 8, ParamType.address,
     ParamType.uint 8, ParamType.uint 112, ParamType.uint 112])]

/-- Constructor arguments of the discovery query (mod.rs lines 46-50). -/
def pairsConstructorArgs (factory fromIdx step : Nat) : Token :=
  Token.tuple [Token.uint fromIdx, Token.uint step, Token.address factory]

/-- One iteration of the inner discovery loop (mod.rs lines 67-73): push the
address unless it is zero or the token is not an address. -/
def pushPair (pairs : List Address) (token : Token) : List Address :=
  match token.into_address with
  | some addr => if addr = 0 then pairs else pairs ++ [addr]
  | none => pairs

/-- The outer discovery loop body (mod.rs lines 65-75): tokens that are not
arrays are skipped. -/
def pushPairsFromToken (pairs : List Address) (token_array : Token) : List Address :=
  match token_array.into_array with
  | some arr => arr.foldl pushPair pairs
  | none => pairs

/-- The accumulation of discovered pairs over the decoded tokens. -/
def collectPairs (return_data_tokens : List Token) : List Address :=
  return_data_tokens.foldl pushPairsFromToken []

/-- `get_pairs_batch_request` (mod.rs lines 40-78). -/
def get_pairs_batch_request (mw : Middleware) (dec : AbiDecoder)
    (factory fromIdx step : Nat) : Except AMMError (List Address) :=
  match mw.deploy .pairsBatchRequest (pairsConstructorArgs factory fromIdx step) with
  | .error e => .error (.contractError "get_pairs_batch_request" factory e)
  | .ok deployer =>
    match mw.callRaw deployer with
    | .error e => .error (.providerError "get_pairs_batch_request" factory e)
    | .ok return_data =>
      match dec.decode pairsSchema return_data with
      | .error e => .error (.abiError e)
      | .ok return_data_tokens => .ok (collectPairs return_data_tokens)

/-- `batch_start` (mod.rs line 84): the first record's address, or the
default zero address for an empty slice. -/
def batchStart (amms : List AMM) : Address :=
  ((amms.head?).map AMM.address).getD 0

/-- Constructor arguments of the bulk query (mod.rs lines 86-91). -/
def bulkConstructorArgs (amms : List AMM) : Token :=
  Token.tuple [Token.array (amms.map fun a => Token.address a.address)]

/-- The body of the bulk loop for one decoded tuple (mod.rs lines 117-136,
without the trailing index increment): `pool_data[0]` panics on an empty
tuple; a missing or zero token-A address skips the record; otherwise
`amms.get_mut(pool_idx).expect(..)` panics when the index is out of bounds,
non-UniswapV2 variants are skipped, and a populated pool is written back.
`none` models a panic. -/
def processTuple (amms : List AMM) (pool_idx : Nat) (pool_data : List Token) :
    Option (List AMM) :=
  match pool_data.get? 0 with
  | none => none
  | some t0 =>
    match t0.into_address with
    | none => some amms
    | some address =>
      if address = 0 then some amms
      else
        match amms.get? pool_idx with
        | none => none
        | some (AMM.otherVariant _) => some amms
        | some (AMM.uniswapV2Pool uniswap_v2_pool) =>
          match populate_pool_data_from_tokens uniswap_v2_pool pool_data with
          | .panic => none
          | .fail => some amms
          | .ok pool => some (amms.set pool_idx (AMM.uniswapV2Pool pool))

/-- The inner bulk loop (mod.rs lines 116-138): `pool_idx` advances once per
token that is a tuple; other tokens are skipped without advancing. -/
def processTupleList (amms : List AMM) (pool_idx : Nat) :
    List Token → Option (List AMM × Nat)
  | [] => some (amms, pool_idx)
  | tup :: rest =>
    match tup.into_tuple with
    | none => processTupleList amms pool_idx rest
    | some pool_data =>
      match processTuple amms pool_idx pool_data with
      | none => none
      | some amms1 => processTupleList amms1 (pool_idx + 1) rest

/-- The outer bulk loop (mod.rs lines 114-140): decoded tokens that are not
arrays are skipped. -/
def processOuter (amms : List AMM) (pool_idx : Nat) :
    List Token → Option (List AMM × Nat)
  | [] => some (amms, pool_idx)
  | t :: rest =>
    match t.into_array with
    | none => processOuter amms pool_idx rest
    | some arr =>
      match processTupleList amms pool_idx arr with
      | none => none
      | some (amms1, idx1) => processOuter amms1 idx1 rest

/-- The decode-and-merge stage of the bulk operation (mod.rs lines 100-142):
decode the raw bytes per the pool-data schema, then merge positionally.
The result is `none` on a Rust panic, otherwise the returned `Result`
paired with the final state of the caller's records. -/
def bulkDecodeAndPopulate (dec : AbiDecoder) (return_data : List Nat)
    (amms : List AMM) : Option (Except AMMError Unit × List AMM) :=
  match dec.decode poolDataSchema return_data with
  | .error e => some (.error (.abiError e), amms)
  | .ok return_data_tokens =>
    match processOuter amms 0 return_data_tokens with
    | none => none
    | some (amms1, _) => some (.ok (), amms1)

/-- `get_amm_data_batch_request` (mod.rs lines 80-143).  The result is
`none` on a Rust panic, otherwise the returned `Result` paired with the
final state of the caller's records. -/
def get_amm_data_batch_request (mw : Middleware) (dec : AbiDecoder)
    (amms : List AMM) : Option (Except AMMError Unit × List AMM) :=
  match mw.deploy .poolDataBatchRequest (bulkConstructorArgs amms) with
  | .error e =>
    some (.error (.contractError "get_amm_data_batch_request" (batchStart amms) e), amms)
  | .ok deployer =>
    match mw.callRaw deployer with
    | .error e =>
      some (.error (.providerError "get_amm_data_batch_request" (batchStart amms) e), amms)
    | .ok return_data => bulkDecodeAndPopulate dec return_data amms

/-- One tuple of the single-pool loop (mod.rs lines 172-178): a token that
is not a tuple, or a failing field extraction, is escalated to
`BatchRequestError(pool.address)`; `none` models a panic. -/
def singleTupleStep (pool : UniswapV2Pool) (tup : Token) :
    Option (Except AMMError UniswapV2Pool) :=
  match tup.into_tuple with
  | none => some (.error (.batchRequestError pool.address))
  | some pool_data =>
    match populate_pool_data_from_tokens pool pool_data with
    | .panic => none
    | .fail => some (.error (.batchRequestError pool.address))
    | .ok pool1 => some (.ok pool1)

/-- The inner single-pool loop: the pool is overwritten in place after each
successful tuple; an error aborts with the state reached so far. -/
def singleTupleLoop (pool : UniswapV2Pool) :
    List Token → Option (Except AMMError Unit × UniswapV2Pool)
  | [] => some (.ok (), pool)
  | tup :: rest =>
    match singleTupleStep pool tup with
    | none => none
    | some (.error e) => some (.error e, pool)
    | some (.ok pool1) => singleTupleLoop pool1 rest

/-- The outer single-pool loop (mod.rs lines 170-181). -/
def singleOuterLoop (pool : UniswapV2Pool) :
    List Token → Option (Except AMMError Unit × UniswapV2Pool)
  | [] => some (.ok (), pool)
  | t :: rest =>
    match t.into_array with
    | none => singleOuterLoop pool rest
    | some arr =>
      match singleTupleLoop pool arr with
      | none => none
      | some (.error e, pool1) => some (.error e, pool1)
      | some (.ok (), pool1) => singleOuterLoop pool1 rest

/-- `get_v2_pool_data_batch_request` (mod.rs lines 145-184).  The result is
`none` on a Rust panic, otherwise the returned `Result` paired with the
final state of the caller's pool record. -/
def get_v2_pool_data_batch_request (mw : Middleware) (dec : AbiDecoder)
    (pool : UniswapV2Pool) : Option (Except AMMError Unit × UniswapV2Pool) :=
  match mw.deploy .poolDataBatchRequest
      (Token.tuple [Token.array [Token.address pool.address]]) with
  | .error e =>
    some (.error (.contractError "get_v2_pool_data_batch_request" pool.address e), pool)
  | .ok deployer =>
    match mw.callRaw deployer with
    | .error e =>
      some (.error (.providerError "get_v2_pool_data_batch_request" pool.address e), pool)
    | .ok return_data =>
      match dec.decode poolDataSchema return_data with
      | .error e => some (.error (.abiError e), pool)
      | .ok return_data_tokens => singleOuterLoop pool return_data_tokens

/-! ### Positional characterization of the bulk merge loop -/

/-- Reference description of the effect of one bulk-loop iteration on the
record at its own position: the record is left alone when the tuple has no
first field, a non-address or zero first field, when the record is not a
UniswapV2 pool, or when field extraction fails; otherwise it is replaced by
the populated pool. -/
def updateOne (a : AMM) (pool_data : List Token) : AMM :=
  match pool_data.get? 0 with
  | none => a
  | some t0 =>
    match t0.into_address with
    | none => a
    | some address =>
      if address = 0 then a
      else
        match a with
        | .otherVariant x => .otherVariant x
        | .uniswapV2Pool p =>
          match populate_pool_data_from_tokens p pool_data with
          | .ok pool => .uniswapV2Pool pool
          | _ => .uniswapV2Pool p

/-- The bulk loop restricted to the flattened sequence of decoded tuples:
one `processTuple` step per tuple, the index advancing by one each time. -/
def mergeTuples (amms : List AMM) (idx : Nat) :
    List (List Token) → Option (List AMM × Nat)
  | [] => some (amms, idx)
  | td :: rest =>
    match processTuple amms idx td with
    | none => none
    | some amms1 => mergeTuples amms1 (idx + 1) rest

/-- The flattened sequence of tuple-shaped tokens that the bulk loop pairs
with record positions: the decoded arrays are concatenated in order, and
non-array outer tokens and non-tuple inner tokens are skipped (they do not
advance the position counter). -/
def flatTuples : List Token → List (List Token)
  | [] => []
  | t :: rest =>
    match t.into_array with
    | none => flatTuples rest
    | some arr => arr.filterMap Token.into_tuple ++ flatTuples rest

/-- Reference description of the record visible at position `j` after the
bulk loop ran from position `idx` over the tuple sequence `tds`. -/
def positionalUpdate (amms : List AMM) (idx : Nat) (tds : List (List Token))
    (j : Nat) : Option AMM :=
  if idx ≤ j then
    match tds.get? (j - idx) with
    | some td => (amms.get? j).map fun a => updateOne a td
    | none => amms.get? j
  else amms.get? j

/-! ### Schema shape predicates for decoded responses -/

/-- A token list with exactly the shape of one decoded pool tuple per the
declared schema: six fields of the declared kinds (address, uint, address,
uint, uint, uint). -/
def schemaShapedTuple (td : List Token) : Bool :=
  match td with
  | [.address _, .uint _, .address _, .uint _, .uint _, .uint _] => true
  | _ => false

/-- A schema-shaped tuple whose words also fit the numeric casts performed
by the populator: decimals fit 32 bits and reserves fit 128 bits (both are
implied by the declared uint8 / uint112 widths). -/
def inRangePoolTuple (td : List Token) : Bool :=
  match td with
  | [.address _, .uint v1, .address _, .uint v2, .uint r0, .uint r1] =>
    decide (v1 < 2 ^ 32) && decide (v2 < 2 ^ 32) &&
    decide (r0 < 2 ^ 128) && decide (r1 < 2 ^ 128)
  | _ => false

/-- A token that is a tuple of schema shape. -/
def shapedTupleToken (t : Token) : Bool :=
  match t with
  | .tuple td => schemaShapedTuple td
  | _ => false

/-- An outer decoded token that conforms to the pool-data schema: arrays
hold only schema-shaped tuples. -/
def shapedOuterToken (t : Token) : Bool :=
  match t with
  | .array arr => arr.all shapedTupleToken
  | _ => true

/-- A decoded pool-data response whose arrays contain only schema-shaped
tuples, as the ABI decoder guarantees for the declared schema. -/
def schemaShapedResponse (ts : List Token) : Bool :=
  ts.all shapedOuterToken

/-- The bulk loop's sentinel test on a tuple: its first field is an address
token holding a non-zero address. -/
def tupleFirstNonZero (td : List Token) : Bool :=
  match td.get? 0 with
  | some (Token.address a) => a != 0
  | _ => false

/-! ### The discovery path returns exactly the non-zero addresses -/

/-- Discovery output as the spec words it: every address found in the
decoded arrays, in encounter order, with the zero entries dropped.  This
definition follows the wording of the spec, to be compared with the
accumulator loop `collectPairs` taken from the source. -/
def specDiscoveredAddresses (ts : List Token) : List Address :=
  (((ts.filterMap Token.into_array).flatten).filterMap Token.into_address).filter
    (fun a => decide (a ≠ 0))

/-! ### Concrete fixtures -/

/-- A transport whose staging and delivery both succeed, returning an empty
raw buffer. -/
def mwOk : Middleware :=
  { deploy := fun _ _ => .ok 0, callRaw := fun _ => .ok [] }

/-- A transport whose staging step fails with code 3. -/
def mwDeployFail : Middleware :=
  { deploy := fun _ _ => .error 3, callRaw := fun _ => .ok [] }

/-- A transport whose delivery step fails with code 4. -/
def mwCallFail : Middleware :=
  { deploy := fun _ _ => .ok 0, callRaw := fun _ => .error 4 }

/-- A decoder that always produces the given token list. -/
def decOf (ts : List Token) : AbiDecoder :=
  { decode := fun _ _ => .ok ts }

/-- A decoder that always fails with code 5. -/
def decFail : AbiDecoder :=
  { decode := fun _ _ => .error 5 }

/-- The fields of the all-zero decoded tuple: the "no data" sentinel row. -/
def zeroTupleFields : List Token :=
  [Token.address 0, Token.uint 0, Token.address 0,
    Token.uint 0, Token.uint 0, Token.uint 0]

/-- The all-zero decoded tuple. -/
def zeroTuple : Token := Token.tuple zeroTupleFields

/-- A decoded tuple with a non-zero token-A address. -/
def liveTupleFields : List Token :=
  [Token.address 21, Token.uint 18, Token.address 22,
    Token.uint 6, Token.uint 300, Token.uint 400]

/-- A sample pool record with non-trivial prior values. -/
def samplePool : UniswapV2Pool :=
  { address := 1, token_a := 11, token_a_decimals := 18, token_b := 12,
    token_b_decimals := 6, reserve_0 := 1000, reserve_1 := 2000 }

/-- A one-record bulk input. -/
def sampleAmms : List AMM := [AMM.uniswapV2Pool samplePool]

/-- `samplePool` after being populated from `liveTupleFields`. -/
def sampleLivePool : UniswapV2Pool :=
  { address := 1, token_a := 21, token_a_decimals := 18, token_b := 22,
    token_b_decimals := 6, reserve_0 := 300, reserve_1 := 400 }

/-- Classifies an error as staging, delivery or decode (every kind except
the single-path missing-record error). -/
def isStagingDeliveryOrDecode (e : AMMError) : Bool :=
  match e with
  | .batchRequestError _ => false
  | _ => true

/-! ### Theorems -/

/-! ### Inversion lemmas for the embedding primitives -/

@[simp] theorem RRes.bind_def {α β : Type} (x : RRes α) (f : α → RRes β) :
    (x >>= f) = RRes.bind x f := rfl

@[simp] theorem RRes.pure_def {α : Type} (a : α) : (pure a : RRes α) = RRes.ok a := rfl

@[simp] theorem RRes.bind_eq_ok {α β : Type} (x : RRes α) (f : α → RRes β) (b : β) :
    RRes.bind x f = RRes.ok b ↔ ∃ a, x = RRes.ok a ∧ f a = RRes.ok b := by
  cases x <;> simp [RRes.bind]

@[simp] theorem indexToken_eq_ok (tokens : List Token) (i : Nat) (t : Token) :
    indexToken tokens i = RRes.ok t ↔ tokens.get? i = some t := by
  unfold indexToken
  cases tokens.get? i <;> simp

@[simp] theorem liftOpt_eq_ok {α : Type} (o : Option α) (a : α) :
    liftOpt o = RRes.ok a ↔ o = some a := by
  cases o <;> simp [liftOpt]

@[simp] theorem into_address_eq_some (t : Token) (a : Address) :
    t.into_address = some a ↔ t = .address a := by
  cases t <;> simp [Token.into_address]

@[simp] theorem into_uint_eq_some (t : Token) (v : Nat) :
    t.into_uint = some v ↔ t = .uint v := by
  cases t <;> simp [Token.into_uint]

@[simp] theorem into_array_eq_some (t : Token) (ts : List Token) :
    t.into_array = some ts ↔ t = .array ts := by
  cases t <;> simp [Token.into_array]

@[simp] theorem into_tuple_eq_some (t : Token) (ts : List Token) :
    t.into_tuple = some ts ↔ t = .tuple ts := by
  cases t <;> simp [Token.into_tuple]

@[simp] theorem as_u32_eq_ok (v w : Nat) :
    as_u32 v = RRes.ok w ↔ v < 2 ^ 32 ∧ w = v := by
  unfold as_u32
  split <;> simp_all [eq_comm]

@[simp] theorem as_u128_eq_ok (v w : Nat) :
    as_u128 v = RRes.ok w ↔ v < 2 ^ 128 ∧ w = v := by
  unfold as_u128
  split <;> simp_all [eq_comm]

/-- Full characterization of a successful run of the record populator: all
six fields must extract, both decimal words must fit `as_u32` and both
reserves must fit `as_u128`, and the result replaces exactly the six
decoded fields, preserving the pool address. -/
theorem populate_ok_iff (pool p' : UniswapV2Pool) (tokens : List Token) :
    populate_pool_data_from_tokens pool tokens = RRes.ok p' ↔
    ∃ a v1 b v2 r0 r1,
      tokens.get? 0 = some (.address a) ∧
      tokens.get? 1 = some (.uint v1) ∧ v1 < 2 ^ 32 ∧
      tokens.get? 2 = some (.address b) ∧
      tokens.get? 3 = some (.uint v2) ∧ v2 < 2 ^ 32 ∧
      tokens.get? 4 = some (.uint r0) ∧ r0 < 2 ^ 128 ∧
      tokens.get? 5 = some (.uint r1) ∧ r1 < 2 ^ 128 ∧
      p' = { address := pool.address, token_a := a, token_a_decimals := v1 % 256,
             token_b := b, token_b_decimals := v2 % 256,
             reserve_0 := r0, reserve_1 := r1 } := by
  unfold populate_pool_data_from_tokens
  simp only [RRes.bind_def, RRes.pure_def, RRes.bind_eq_ok, indexToken_eq_ok,
    liftOpt_eq_ok, into_address_eq_some, into_uint_eq_some, as_u32_eq_ok,
    as_u128_eq_ok, RRes.ok.injEq]
  constructor
  · rintro ⟨t0, h0, a, rfl, t1, h1, v1, rfl, w1, ⟨hv1, rfl⟩, t2, h2, b, rfl,
      t3, h3, v2, rfl, w2, ⟨hv2, rfl⟩, t4, h4, r0, rfl, w3, ⟨hr0, rfl⟩,
      t5, h5, r1, rfl, w4, ⟨hr1, rfl⟩, hp⟩
    exact ⟨a, w1, b, w2, w3, w4, h0, h1, hv1, h2, h3, hv2, h4, hr0, h5, hr1, hp.symm⟩
  · rintro ⟨a, v1, b, v2, r0, r1, h0, h1, hv1, h2, h3, hv2, h4, hr0, h5, hr1, rfl⟩
    exact ⟨_, h0, a, rfl, _, h1, v1, rfl, v1, ⟨hv1, rfl⟩, _, h2, b, rfl, _, h3,
      v2, rfl, v2, ⟨hv2, rfl⟩, _, h4, r0, rfl, r0, ⟨hr0, rfl⟩, _, h5, r1, rfl,
      r1, ⟨hr1, rfl⟩, rfl⟩

/-- A successful populate run is a function of the tuple only: running it
from any other start record succeeds with the same six decoded fields and
that record's own address. -/
theorem populate_ok_of_ok (pool p' q : UniswapV2Pool) (tokens : List Token)
    (h : populate_pool_data_from_tokens pool tokens = RRes.ok p') :
    populate_pool_data_from_tokens q tokens =
      RRes.ok { address := q.address, token_a := p'.token_a,
                token_a_decimals := p'.token_a_decimals, token_b := p'.token_b,
                token_b_decimals := p'.token_b_decimals,
                reserve_0 := p'.reserve_0, reserve_1 := p'.reserve_1 } := by
  obtain ⟨a, v1, b, v2, r0, r1, h0, h1, hv1, h2, h3, hv2, h4, hr0, h5, hr1, rfl⟩ :=
    (populate_ok_iff pool p' tokens).1 h
  exact (populate_ok_iff q _ tokens).2
    ⟨a, v1, b, v2, r0, r1, h0, h1, hv1, h2, h3, hv2, h4, hr0, h5, hr1, rfl⟩

/-- Running the populator again from its own output reproduces the output. -/
theorem populate_idem (pool p' : UniswapV2Pool) (tokens : List Token)
    (h : populate_pool_data_from_tokens pool tokens = RRes.ok p') :
    populate_pool_data_from_tokens p' tokens = RRes.ok p' := by
  have h' := populate_ok_of_ok pool p' p' tokens h
  obtain ⟨a, v1, b, v2, r0, r1, h0, h1, hv1, h2, h3, hv2, h4, hr0, h5, hr1, rfl⟩ :=
    (populate_ok_iff pool p' tokens).1 h
  exact h'

/-! ### List helper lemmas -/

theorem list_get?_some_lt {α : Type} :
    ∀ (l : List α) (i : Nat) (v : α), l.get? i = some v → i < l.length := by
  intro l
  induction l with
  | nil => intro i v h; simp at h
  | cons x xs ih =>
    intro i v h
    cases i with
    | zero => simp
    | succ n => simpa using Nat.succ_lt_succ (ih n v (by simpa using h))

theorem list_get?_set_self {α : Type} :
    ∀ (l : List α) (i : Nat) (v : α), i < l.length → (l.set i v).get? i = some v := by
  intro l
  induction l with
  | nil => intro i v h; simp at h
  | cons x xs ih =>
    intro i v h
    cases i with
    | zero => rfl
    | succ n => simpa using ih n v (by simpa using h)

theorem list_get?_set_ne {α : Type} :
    ∀ (l : List α) (i j : Nat) (v : α), i ≠ j → (l.set i v).get? j = l.get? j := by
  intro l
  induction l with
  | nil => intro i j v _; simp
  | cons x xs ih =>
    intro i j v hne
    cases i with
    | zero =>
      cases j with
      | zero => exact absurd rfl hne
      | succ m => rfl
    | succ n =>
      cases j with
      | zero => rfl
      | succ m => simpa using ih n m v (fun he => hne (by rw [he]))

theorem list_set_self {α : Type} :
    ∀ (l : List α) (i : Nat) (v : α), l.get? i = some v → l.set i v = l := by
  intro l
  induction l with
  | nil => intro i v h; simp at h
  | cons x xs ih =>
    intro i v h
    cases i with
    | zero => simp at h; rw [h]; rfl
    | succ n => simpa using ih n v (by simpa using h)

/-- A non-panicking bulk-loop iteration rewrites the record list at exactly
its own index, through `updateOne`. -/
theorem processTuple_some_eq (amms amms1 : List AMM) (idx : Nat) (td : List Token)
    (h : processTuple amms idx td = some amms1) :
    amms1 = match amms.get? idx with
            | some a => amms.set idx (updateOne a td)
            | none => amms := by
  unfold processTuple at h
  cases e0 : td.get? 0 <;> simp only [e0] at h
  · exact absurd h (by simp)
  · rename_i t0
    cases e1 : t0.into_address <;> simp only [e1] at h
    · simp only [Option.some.injEq] at h
      subst h
      cases e2 : amms.get? idx
      · simp only [e2]
      · rename_i a
        simp only [e2]
        exact (list_set_self amms idx _
          (by simp only [updateOne, e0, e1]; exact e2)).symm
    · rename_i address
      by_cases haddr : address = 0
      · rw [if_pos haddr] at h
        simp only [Option.some.injEq] at h
        subst h
        cases e2 : amms.get? idx
        · simp only [e2]
        · rename_i a
          simp only [e2]
          exact (list_set_self amms idx _
            (by simp only [updateOne, e0, e1, if_pos haddr]; exact e2)).symm
      · rw [if_neg haddr] at h
        cases e2 : amms.get? idx <;> simp only [e2] at h ⊢
        · exact absurd h (by simp)
        · rename_i a
          cases a with
          | otherVariant x =>
            simp only [Option.some.injEq] at h
            subst h
            exact (list_set_self amms idx _
              (by simp only [updateOne, e0, e1, if_neg haddr]; exact e2)).symm
          | uniswapV2Pool p =>
            cases e3 : populate_pool_data_from_tokens p td <;> simp only [e3] at h
            · exact absurd h (by simp)
            · simp only [Option.some.injEq] at h
              subst h
              exact (list_set_self amms idx _
                (by simp only [updateOne, e0, e1, if_neg haddr, e3]; exact e2)).symm
            · rename_i pool
              simp only [Option.some.injEq] at h
              subst h
              simp only [updateOne, e0, e1, if_neg haddr, e3]

/-- A non-panicking bulk-loop iteration preserves the length of the list. -/
theorem processTuple_some_length (amms amms1 : List AMM) (idx : Nat) (td : List Token)
    (h : processTuple amms idx td = some amms1) : amms1.length = amms.length := by
  rw [processTuple_some_eq amms amms1 idx td h]
  cases amms.get? idx <;> simp

/-- Index-wise reading of `processTuple_some_eq`. -/
theorem processTuple_some_get? (amms amms1 : List AMM) (idx : Nat) (td : List Token)
    (h : processTuple amms idx td = some amms1) :
    ∀ j, amms1.get? j =
      if j = idx then (amms.get? j).map (fun a => updateOne a td) else amms.get? j := by
  intro j
  rw [processTuple_some_eq amms amms1 idx td h]
  cases e2 : amms.get? idx
  · by_cases hj : j = idx
    · subst hj; rw [if_pos rfl, e2]; rfl
    · rw [if_neg hj]
  case some a =>
    by_cases hj : j = idx
    · subst hj
      rw [if_pos rfl, e2, list_get?_set_self amms j _ (list_get?_some_lt amms j a e2)]
      rfl
    · rw [if_neg hj, list_get?_set_ne amms idx j _ (fun he => hj he.symm)]

theorem processTupleList_eq_mergeTuples :
    ∀ (arr : List Token) (amms : List AMM) (idx : Nat),
      processTupleList amms idx arr =
        mergeTuples amms idx (arr.filterMap Token.into_tuple) := by
  intro arr
  induction arr with
  | nil => intro amms idx; rfl
  | cons t rest ih =>
    intro amms idx
    cases e : t.into_tuple
    · simp only [processTupleList, e, List.filterMap_cons, ih]
    · rename_i td
      simp only [processTupleList, e, List.filterMap_cons, mergeTuples]
      cases ep : processTuple amms idx td <;> simp only [ep]
      rename_i amms1
      exact ih amms1 (idx + 1)

theorem mergeTuples_append :
    ∀ (l1 l2 : List (List Token)) (amms : List AMM) (idx : Nat),
      mergeTuples amms idx (l1 ++ l2) =
        match mergeTuples amms idx l1 with
        | none => none
        | some (amms1, idx1) => mergeTuples amms1 idx1 l2 := by
  intro l1
  induction l1 with
  | nil => intro l2 amms idx; rfl
  | cons td rest ih =>
    intro l2 amms idx
    simp only [List.cons_append, mergeTuples]
    cases ep : processTuple amms idx td <;> simp only [ep]
    rename_i amms1
    exact ih l2 amms1 (idx + 1)

theorem processOuter_eq_mergeTuples :
    ∀ (ts : List Token) (amms : List AMM) (idx : Nat),
      processOuter amms idx ts = mergeTuples amms idx (flatTuples ts) := by
  intro ts
  induction ts with
  | nil => intro amms idx; rfl
  | cons t rest ih =>
    intro amms idx
    cases e : t.into_array
    · simp only [processOuter, flatTuples, e, ih]
    · rename_i arr
      simp only [processOuter, flatTuples, e, processTupleList_eq_mergeTuples,
        mergeTuples_append]
      cases em : mergeTuples amms idx (arr.filterMap Token.into_tuple) <;>
        simp only [em]
      rename_i pr
      obtain ⟨amms1, idx1⟩ := pr
      exact ih amms1 idx1

/-- The fundamental positional characterization of a non-panicking bulk
merge: the counter advances once per tuple, the list length is preserved,
and the record at each position is a function of that record and the tuple
at the same position only. -/
theorem mergeTuples_some_spec :
    ∀ (tds : List (List Token)) (amms : List AMM) (idx : Nat)
      (amms1 : List AMM) (idx1 : Nat),
      mergeTuples amms idx tds = some (amms1, idx1) →
      idx1 = idx + tds.length ∧ amms1.length = amms.length ∧
      ∀ j, amms1.get? j = positionalUpdate amms idx tds j := by
  intro tds
  induction tds with
  | nil =>
    intro amms idx amms1 idx1 h
    simp only [mergeTuples, Option.some.injEq, Prod.mk.injEq] at h
    obtain ⟨rfl, rfl⟩ := h
    refine ⟨by simp, rfl, ?_⟩
    intro j
    unfold positionalUpdate
    by_cases hj : idx ≤ j
    · rw [if_pos hj]
      simp
    · rw [if_neg hj]
  | cons td rest ih =>
    intro amms idx amms1 idx1 h
    simp only [mergeTuples] at h
    cases ep : processTuple amms idx td <;> simp only [ep] at h
    · exact absurd h (by simp)
    · rename_i amms0
      obtain ⟨hidx, hlen, hget⟩ := ih amms0 (idx + 1) amms1 idx1 h
      have hptg := processTuple_some_get? amms amms0 idx td ep
      have hptl := processTuple_some_length amms amms0 idx td ep
      refine ⟨by rw [hidx]; simp; omega, by rw [hlen, hptl], ?_⟩
      intro j
      rw [hget j]
      unfold positionalUpdate
      rcases Nat.lt_trichotomy j idx with hj | hj | hj
      · rw [if_neg (by omega), if_neg (by omega), hptg j, if_neg (by omega)]
      · subst hj
        rw [if_neg (by omega), if_pos (le_refl j), Nat.sub_self]
        simp only [List.get?_cons_zero]
        rw [hptg j, if_pos rfl]
      · rw [if_pos (by omega), if_pos (by omega)]
        have hsub : j - idx = (j - (idx + 1)) + 1 := by omega
        rw [hsub, List.get?_cons_succ, hptg j, if_neg (by omega)]

theorem inRange_shaped (td : List Token) (h : inRangePoolTuple td = true) :
    schemaShapedTuple td = true := by
  unfold inRangePoolTuple at h
  unfold schemaShapedTuple
  split at h
  · rfl
  · exact absurd h (by simp)

/-- An in-range tuple makes the populator succeed from any start record. -/
theorem populate_ok_of_inRange (p : UniswapV2Pool) (td : List Token)
    (h : inRangePoolTuple td = true) :
    ∃ p', populate_pool_data_from_tokens p td = RRes.ok p' := by
  unfold inRangePoolTuple at h
  split at h
  · rename_i a v1 b v2 r0 r1
    simp only [Bool.and_eq_true, decide_eq_true_eq] at h
    obtain ⟨⟨⟨h1, h2⟩, h3⟩, h4⟩ := h
    refine ⟨_, (populate_ok_iff p _ _).2 ⟨a, v1, b, v2, r0, r1, ?_, ?_, h1, ?_, ?_,
      h2, ?_, h3, ?_, h4, rfl⟩⟩ <;> rfl
  · exact absurd h (by simp)

/-- A schema-shaped tuple never makes the populator hit a failing field
extraction: it either panics on an oversized word or succeeds. -/
theorem populate_shaped_cases (p : UniswapV2Pool) (td : List Token)
    (h : schemaShapedTuple td = true) :
    populate_pool_data_from_tokens p td = RRes.panic ∨
    ∃ p', populate_pool_data_from_tokens p td = RRes.ok p' := by
  unfold schemaShapedTuple at h
  split at h
  · rename_i a v1 b v2 r0 r1
    by_cases h1 : v1 < 2 ^ 32
    · by_cases h2 : v2 < 2 ^ 32
      · by_cases h3 : r0 < 2 ^ 128
        · by_cases h4 : r1 < 2 ^ 128
          · refine Or.inr ⟨_, (populate_ok_iff p _ _).2
              ⟨a, v1, b, v2, r0, r1, ?_, ?_, h1, ?_, ?_, h2, ?_, h3, ?_, h4, rfl⟩⟩ <;> rfl
          · exact Or.inl (by
              simp [populate_pool_data_from_tokens, indexToken, liftOpt,
                Token.into_address, Token.into_uint, as_u32, as_u128, RRes.bind]
              split_ifs <;> simp_all [RRes.bind])
        · exact Or.inl (by
            simp [populate_pool_data_from_tokens, indexToken, liftOpt,
              Token.into_address, Token.into_uint, as_u32, as_u128, RRes.bind]
            split_ifs <;> simp_all [RRes.bind])
      · exact Or.inl (by
          simp [populate_pool_data_from_tokens, indexToken, liftOpt,
            Token.into_address, Token.into_uint, as_u32, as_u128, RRes.bind]
          split_ifs <;> simp_all [RRes.bind])
    · exact Or.inl (by
        simp [populate_pool_data_from_tokens, indexToken, liftOpt,
          Token.into_address, Token.into_uint, as_u32, as_u128, RRes.bind]
        split_ifs <;> simp_all [RRes.bind])
  · exact absurd h (by simp)

theorem populate_shaped_not_fail (p : UniswapV2Pool) (td : List Token)
    (h : schemaShapedTuple td = true) :
    populate_pool_data_from_tokens p td ≠ RRes.fail := by
  rcases populate_shaped_cases p td h with hc | ⟨p', hc⟩ <;> rw [hc] <;> simp

theorem list_lt_get?_some {α : Type} :
    ∀ (l : List α) (i : Nat), i < l.length → ∃ v, l.get? i = some v := by
  intro l
  induction l with
  | nil => intro i h; simp at h
  | cons x xs ih =>
    intro i h
    cases i with
    | zero => exact ⟨x, rfl⟩
    | succ n => simpa using ih n (by simpa using h)

theorem list_get?_none_of_le {α : Type} :
    ∀ (l : List α) (i : Nat), l.length ≤ i → l.get? i = none := by
  intro l
  induction l with
  | nil => intro i _; simp
  | cons x xs ih =>
    intro i h
    cases i with
    | zero => simp at h
    | succ n => simpa using ih n (by simpa using h)

/-! ### No-panic and panic conditions of the bulk merge -/

/-- With an in-range tuple and an in-bounds position, one bulk-loop
iteration cannot panic. -/
theorem processTuple_isSome_of_inRange (amms : List AMM) (idx : Nat)
    (td : List Token) (h : inRangePoolTuple td = true) (hidx : idx < amms.length) :
    ∃ amms1, processTuple amms idx td = some amms1 := by
  have hsh := inRange_shaped td h
  unfold schemaShapedTuple at hsh
  split at hsh
  · rename_i a v1 b v2 r0 r1
    unfold processTuple
    simp only [List.get?_cons_zero, Token.into_address]
    by_cases ha : a = 0
    · rw [if_pos ha]
      exact ⟨amms, rfl⟩
    · rw [if_neg ha]
      obtain ⟨x, hx⟩ := list_lt_get?_some amms idx hidx
      simp only [hx]
      cases x with
      | otherVariant y => exact ⟨amms, rfl⟩
      | uniswapV2Pool p =>
        obtain ⟨p', hp⟩ := populate_ok_of_inRange p _ h
        simp only [hp]
        exact ⟨_, rfl⟩
  · exact absurd hsh (by simp)

/-- With in-range tuples fitting inside the record list, the bulk merge
never panics and advances the counter over every tuple. -/
theorem mergeTuples_ok_of_inRange :
    ∀ (tds : List (List Token)) (amms : List AMM) (idx : Nat),
      (∀ td ∈ tds, inRangePoolTuple td = true) →
      idx + tds.length ≤ amms.length →
      ∃ amms1, mergeTuples amms idx tds = some (amms1, idx + tds.length) := by
  intro tds
  induction tds with
  | nil =>
    intro amms idx _ _
    exact ⟨amms, by simp [mergeTuples]⟩
  | cons td rest ih =>
    intro amms idx hall hlen
    simp only [List.length_cons] at hlen
    have h1 : inRangePoolTuple td = true := hall td (by simp)
    obtain ⟨amms0, hp⟩ :=
      processTuple_isSome_of_inRange amms idx td h1 (by omega)
    have hlen0 := processTuple_some_length amms amms0 idx td hp
    obtain ⟨amms1, hm⟩ := ih amms0 (idx + 1)
      (fun td' ht => hall td' (by simp [ht])) (by rw [hlen0]; omega)
    refine ⟨amms1, ?_⟩
    have hlist : idx + (td :: rest).length = (idx + 1) + rest.length := by
      simp [List.length_cons]
      omega
    rw [hlist]
    simp only [mergeTuples, hp]
    exact hm

/-- A tuple with a non-zero address first field at an out-of-bounds
position makes the bulk-loop iteration panic on `.expect`. -/
theorem processTuple_none_of_oob (amms : List AMM) (idx : Nat) (td : List Token)
    (h : tupleFirstNonZero td = true) (hidx : amms.length ≤ idx) :
    processTuple amms idx td = none := by
  unfold tupleFirstNonZero at h
  cases e0 : td.get? 0 <;> simp only [e0] at h
  · exact absurd h (by simp)
  · rename_i t0
    cases t0 <;> simp at h
    rename_i a
    unfold processTuple
    simp only [e0, Token.into_address]
    rw [if_neg h, list_get?_none_of_le amms idx hidx]

/-- With in-range tuples, the bulk merge panics whenever some tuple with a
non-zero address first field sits at a position beyond the record list. -/
theorem mergeTuples_none_of_oob :
    ∀ (tds : List (List Token)) (amms : List AMM) (idx : Nat),
      (∀ td ∈ tds, inRangePoolTuple td = true) →
      (∃ j td, tds.get? j = some td ∧ amms.length ≤ idx + j ∧
        tupleFirstNonZero td = true) →
      mergeTuples amms idx tds = none := by
  intro tds
  induction tds with
  | nil =>
    rintro amms idx _ ⟨j, td, hj, _, _⟩
    simp at hj
  | cons td0 rest ih =>
    rintro amms idx hall ⟨j, td, hj, hoob, hnz⟩
    cases j with
    | zero =>
      simp only [List.get?_cons_zero, Option.some.injEq] at hj
      subst hj
      have hn := processTuple_none_of_oob amms idx td0 hnz (by omega)
      simp only [mergeTuples, hn]
    | succ j' =>
      simp only [List.get?_cons_succ] at hj
      simp only [mergeTuples]
      cases ep : processTuple amms idx td0
      · simp only
      · rename_i amms0
        simp only
        exact ih amms0 (idx + 1) (fun t ht => hall t (by simp [ht]))
          ⟨j', td, hj,
            by rw [processTuple_some_length amms amms0 idx td0 ep]; omega, hnz⟩

/-! ### Idempotence of the bulk merge -/

/-- Re-running one bulk-loop iteration on a list that already holds the
iteration's result at the target position leaves the list unchanged. -/
theorem processTuple_restart (amms amms1 bmms : List AMM) (idx : Nat)
    (td : List Token) (h : processTuple amms idx td = some amms1)
    (hb : bmms.get? idx = amms1.get? idx) :
    processTuple bmms idx td = some bmms := by
  unfold processTuple at h ⊢
  cases e0 : td.get? 0 <;> simp only [e0] at h ⊢
  · exact absurd h (by simp)
  · rename_i t0
    cases e1 : t0.into_address <;> simp only [e1] at h ⊢
    · rename_i address
      by_cases haddr : address = 0
      · rw [if_pos haddr]
      · rw [if_neg haddr] at h ⊢
        cases e2 : amms.get? idx <;> simp only [e2] at h
        · exact absurd h (by simp)
        · rename_i a
          cases a with
          | otherVariant x =>
            simp only [Option.some.injEq] at h
            subst h
            simp only [hb, e2]
          | uniswapV2Pool p =>
            cases e3 : populate_pool_data_from_tokens p td <;> simp only [e3] at h
            · exact absurd h (by simp)
            · simp only [Option.some.injEq] at h
              subst h
              simp only [hb, e2, e3]
            · rename_i pool
              simp only [Option.some.injEq] at h
              subst h
              have hidx : idx < amms.length := list_get?_some_lt amms idx _ e2
              have hbi : bmms.get? idx = some (AMM.uniswapV2Pool pool) := by
                rw [hb, list_get?_set_self amms idx _ hidx]
              have hpop := populate_idem p pool td e3
              simp only [hbi, hpop, Option.some.injEq]
              exact list_set_self bmms idx _ hbi

/-- Re-running the bulk merge on its own output reproduces the output. -/
theorem mergeTuples_idem :
    ∀ (tds : List (List Token)) (amms : List AMM) (idx : Nat)
      (amms1 : List AMM) (idx1 : Nat),
      mergeTuples amms idx tds = some (amms1, idx1) →
      mergeTuples amms1 idx tds = some (amms1, idx1) := by
  intro tds
  induction tds with
  | nil =>
    intro amms idx amms1 idx1 h
    simp only [mergeTuples, Option.some.injEq, Prod.mk.injEq] at h
    obtain ⟨rfl, rfl⟩ := h
    rfl
  | cons td rest ih =>
    intro amms idx amms1 idx1 h
    simp only [mergeTuples] at h ⊢
    cases ep : processTuple amms idx td <;> simp only [ep] at h
    · exact absurd h (by simp)
    · rename_i amms0
      have hspec := mergeTuples_some_spec rest amms0 (idx + 1) amms1 idx1 h
      have hb : amms1.get? idx = amms0.get? idx := by
        rw [hspec.2.2 idx]
        unfold positionalUpdate
        rw [if_neg (by omega)]
      have hpt := processTuple_restart amms amms0 amms1 idx td ep hb
      simp only [hpt]
      exact ih amms0 (idx + 1) amms1 idx1 h

/-! ### Error shape and no-error conditions of the single-pool loop -/

/-- The only error the single-pool loop body can raise is the
missing-record error carrying the current pool address. -/
theorem singleTupleStep_error_shape (pool : UniswapV2Pool) (tup : Token)
    (e : AMMError) (h : singleTupleStep pool tup = some (.error e)) :
    e = .batchRequestError pool.address := by
  unfold singleTupleStep at h
  cases et : tup.into_tuple <;> simp only [et] at h
  · simp only [Option.some.injEq, Except.error.injEq] at h
    exact h.symm
  · rename_i pool_data
    cases ep : populate_pool_data_from_tokens pool pool_data <;> simp only [ep] at h
    · exact absurd h (by simp)
    · simp only [Option.some.injEq, Except.error.injEq] at h
      exact h.symm
    · exact absurd h (by simp)

/-- Every error the inner single-pool loop raises is a missing-record
error. -/
theorem singleTupleLoop_error_shape :
    ∀ (arr : List Token) (pool : UniswapV2Pool) (e : AMMError)
      (pool1 : UniswapV2Pool),
      singleTupleLoop pool arr = some (.error e, pool1) →
      ∃ a, e = .batchRequestError a := by
  intro arr
  induction arr with
  | nil =>
    intro pool e pool1 h
    simp [singleTupleLoop] at h
  | cons tup rest ih =>
    intro pool e pool1 h
    simp only [singleTupleLoop] at h
    cases es : singleTupleStep pool tup <;> simp only [es] at h
    · exact absurd h (by simp)
    · rename_i r
      cases r with
      | error e' =>
        simp only [Option.some.injEq, Prod.mk.injEq, Except.error.injEq] at h
        obtain ⟨rfl, rfl⟩ := h
        exact ⟨pool.address, singleTupleStep_error_shape pool tup _ es⟩
      | ok pool' => exact ih pool' e pool1 h

/-- Every error the single-pool merge raises is a missing-record error. -/
theorem singleOuterLoop_error_shape :
    ∀ (ts : List Token) (pool : UniswapV2Pool) (e : AMMError)
      (pool1 : UniswapV2Pool),
      singleOuterLoop pool ts = some (.error e, pool1) →
      ∃ a, e = .batchRequestError a := by
  intro ts
  induction ts with
  | nil =>
    intro pool e pool1 h
    simp [singleOuterLoop] at h
  | cons t rest ih =>
    intro pool e pool1 h
    simp only [singleOuterLoop] at h
    cases ea : t.into_array <;> simp only [ea] at h
    · exact ih pool e pool1 h
    · rename_i arr
      cases el : singleTupleLoop pool arr <;> simp only [el] at h
      · exact absurd h (by simp)
      · rename_i pr
        obtain ⟨r, pool0⟩ := pr
        cases r with
        | error e' =>
          simp at h
          obtain ⟨rfl, rfl⟩ := h
          exact singleTupleLoop_error_shape arr pool e' pool0 el
        | ok u =>
          cases u
          simp at h
          exact ih pool0 e pool1 h

/-- On a schema-shaped tuple token the single-pool loop body either panics
or succeeds; it never raises an error. -/
theorem singleTupleStep_shaped_cases (pool : UniswapV2Pool) (tup : Token)
    (h : shapedTupleToken tup = true) :
    singleTupleStep pool tup = none ∨
    ∃ pool1, singleTupleStep pool tup = some (.ok pool1) := by
  unfold shapedTupleToken at h
  cases tup <;> simp at h
  rename_i td
  unfold singleTupleStep
  simp only [Token.into_tuple]
  rcases populate_shaped_cases pool td h with hc | ⟨p', hc⟩ <;> simp only [hc]
  · exact Or.inl trivial
  · exact Or.inr ⟨p', rfl⟩

/-- On schema-shaped tuples the inner single-pool loop either panics or
returns success. -/
theorem singleTupleLoop_shaped_cases :
    ∀ (arr : List Token) (pool : UniswapV2Pool),
      arr.all shapedTupleToken = true →
      singleTupleLoop pool arr = none ∨
      ∃ pool1, singleTupleLoop pool arr = some (.ok (), pool1) := by
  intro arr
  induction arr with
  | nil => intro pool _; exact Or.inr ⟨pool, rfl⟩
  | cons tup rest ih =>
    intro pool hall
    simp only [List.all_cons, Bool.and_eq_true] at hall
    simp only [singleTupleLoop]
    rcases singleTupleStep_shaped_cases pool tup hall.1 with hc | ⟨pool1, hc⟩ <;>
      simp only [hc]
    · exact Or.inl trivial
    · exact ih pool1 hall.2

/-- On a schema-shaped response the single-pool merge either panics or
returns success: no missing-record error can arise. -/
theorem singleOuterLoop_shaped_cases :
    ∀ (ts : List Token) (pool : UniswapV2Pool),
      schemaShapedResponse ts = true →
      singleOuterLoop pool ts = none ∨
      ∃ pool1, singleOuterLoop pool ts = some (.ok (), pool1) := by
  intro ts
  induction ts with
  | nil => intro pool _; exact Or.inr ⟨pool, rfl⟩
  | cons t rest ih =>
    intro pool hall
    simp only [schemaShapedResponse, List.all_cons, Bool.and_eq_true] at hall
    simp only [singleOuterLoop]
    cases ea : t.into_array <;> simp only [ea]
    · exact ih pool hall.2
    · rename_i arr
      have ht : t = Token.array arr := (into_array_eq_some t arr).1 ea
      subst ht
      have harr : arr.all shapedTupleToken = true := by
        simpa [shapedOuterToken] using hall.1
      rcases singleTupleLoop_shaped_cases arr pool harr with hc | ⟨pool1, hc⟩ <;>
        simp only [hc]
      · exact Or.inl trivial
      · exact ih pool1 hall.2

theorem pushPair_foldl (arr : List Token) :
    ∀ acc, arr.foldl pushPair acc =
      acc ++ (arr.filterMap Token.into_address).filter (fun a => decide (a ≠ 0)) := by
  induction arr with
  | nil => intro acc; simp
  | cons t rest ih =>
    intro acc
    simp only [List.foldl_cons, pushPair]
    cases e : t.into_address <;> simp only [e, List.filterMap_cons]
    · exact ih acc
    · rename_i a
      by_cases ha : a = 0
      · subst ha
        rw [if_pos rfl, ih acc]
        simp [List.filter_cons]
      · rw [if_neg ha, ih (acc ++ [a])]
        simp [List.filter_cons, ha]

theorem collectPairs_aux :
    ∀ (ts : List Token) (acc : List Address),
      ts.foldl pushPairsFromToken acc = acc ++ specDiscoveredAddresses ts := by
  intro ts
  induction ts with
  | nil => intro acc; simp [specDiscoveredAddresses]
  | cons t rest ih =>
    intro acc
    rw [List.foldl_cons]
    cases e : t.into_array
    · have hstep : pushPairsFromToken acc t = acc := by
        unfold pushPairsFromToken
        rw [e]
      rw [hstep, ih acc]
      unfold specDiscoveredAddresses
      simp [List.filterMap_cons, e]
    · rename_i arr
      have hstep : pushPairsFromToken acc t =
          acc ++ (arr.filterMap Token.into_address).filter (fun a => decide (a ≠ 0)) := by
        unfold pushPairsFromToken
        rw [e]
        exact pushPair_foldl arr acc
      rw [hstep, ih]
      unfold specDiscoveredAddresses
      simp [List.filterMap_cons, e, List.filterMap_append, List.filter_append,
        List.append_assoc]

/-- The source's discovery accumulator computes exactly the spec's list of
non-zero addresses, in encounter order. -/
theorem collectPairs_eq_spec (ts : List Token) :
    collectPairs ts = specDiscoveredAddresses ts := by
  simpa using collectPairs_aux ts []

/-! ### Run-reduction helpers -/

/-- A tuple whose first field is the zero-address sentinel leaves the
record untouched. -/
theorem updateOne_zero (a : AMM) (td : List Token)
    (h : td.get? 0 = some (Token.address 0)) : updateOne a td = a := by
  unfold updateOne
  simp only [h, Token.into_address]
  simp

@[simp] theorem positionalUpdate_zero (amms : List AMM) (tds : List (List Token))
    (j : Nat) :
    positionalUpdate amms 0 tds j =
      match tds.get? j with
      | some td => (amms.get? j).map fun a => updateOne a td
      | none => amms.get? j := by
  unfold positionalUpdate
  rw [if_pos (Nat.zero_le j), Nat.sub_zero]

/-- With successful staging, delivery and decoding, the bulk operation is
the merge loop over the flattened tuples. -/
theorem get_amm_data_run (mw : Middleware) (dec : AbiDecoder) (amms : List AMM)
    (dep : Nat) (rd : List Nat) (ts : List Token)
    (hd : mw.deploy .poolDataBatchRequest (bulkConstructorArgs amms) = .ok dep)
    (hc : mw.callRaw dep = .ok rd)
    (hdec : dec.decode poolDataSchema rd = .ok ts) :
    get_amm_data_batch_request mw dec amms =
      match mergeTuples amms 0 (flatTuples ts) with
      | none => none
      | some (amms1, _) => some (.ok (), amms1) := by
  unfold get_amm_data_batch_request bulkDecodeAndPopulate
  simp only [hd, hc, hdec, processOuter_eq_mergeTuples]

/-- With successful staging, delivery and decoding, the single-pool
operation is the single-pool merge loop. -/
theorem get_v2_run (mw : Middleware) (dec : AbiDecoder) (pool : UniswapV2Pool)
    (dep : Nat) (rd : List Nat) (ts : List Token)
    (hd : mw.deploy .poolDataBatchRequest
      (Token.tuple [Token.array [Token.address pool.address]]) = .ok dep)
    (hc : mw.callRaw dep = .ok rd)
    (hdec : dec.decode poolDataSchema rd = .ok ts) :
    get_v2_pool_data_batch_request mw dec pool = singleOuterLoop pool ts := by
  unfold get_v2_pool_data_batch_request
  simp only [hd, hc, hdec]

/-- Branch disjunction for a non-panicking bulk-loop iteration: either the
record list is untouched, or the record at the target index is a V2 pool
that a fully successful populate run replaces. -/
theorem processTuple_some_cases (amms amms1 : List AMM) (idx : Nat)
    (td : List Token) (h : processTuple amms idx td = some amms1) :
    amms1 = amms ∨
    ∃ p p', amms.get? idx = some (.uniswapV2Pool p) ∧
      populate_pool_data_from_tokens p td = RRes.ok p' ∧
      amms1 = amms.set idx (.uniswapV2Pool p') := by
  unfold processTuple at h
  cases e0 : td.get? 0 <;> simp only [e0] at h
  · exact absurd h (by simp)
  · rename_i t0
    cases e1 : t0.into_address <;> simp only [e1] at h
    · simp only [Option.some.injEq] at h
      exact Or.inl h.symm
    · rename_i address
      by_cases haddr : address = 0
      · rw [if_pos haddr] at h
        simp only [Option.some.injEq] at h
        exact Or.inl h.symm
      · rw [if_neg haddr] at h
        cases e2 : amms.get? idx <;> simp only [e2] at h
        · exact absurd h (by simp)
        · rename_i a
          cases a with
          | otherVariant x =>
            simp only [Option.some.injEq] at h
            exact Or.inl h.symm
          | uniswapV2Pool p =>
            cases e3 : populate_pool_data_from_tokens p td <;> simp only [e3] at h
            · exact absurd h (by simp)
            · simp only [Option.some.injEq] at h
              exact Or.inl h.symm
            · rename_i pool
              simp only [Option.some.injEq] at h
              exact Or.inr ⟨p, pool, rfl, e3, h.symm⟩

/-! ### Claim theorems -/

/-- C1, counterexample: a response that decodes to a single all-zero tuple
makes the single-record populate return success and overwrite the pool with
the zero values; it does not fail with the missing-record error naming the
requested pool address, contrary to the claim. -/
theorem C1_cex_single_zero_returns_ok :
    get_v2_pool_data_batch_request mwOk (decOf [Token.array [zeroTuple]]) samplePool =
      some (.ok (),
        { address := 1, token_a := 0, token_a_decimals := 0,
          token_b := 0, token_b_decimals := 0, reserve_0 := 0, reserve_1 := 0 }) := rfl

/-- C1, amended: when the decoded token-A field of the single tuple is the
zero address, the single-record call returns success and overwrites the
record with the decoded (zero) values; the missing-record error, carrying
the requested pool address, arises only when a tuple fails field
extraction. -/
theorem C1_zero_sentinel_single_path (mw : Middleware) (dec : AbiDecoder)
    (pool : UniswapV2Pool) (dep : Nat) (rd : List Nat)
    (b : Address) (v1 v2 r0 r1 : Nat)
    (hd : mw.deploy .poolDataBatchRequest
      (Token.tuple [Token.array [Token.address pool.address]]) = .ok dep)
    (hc : mw.callRaw dep = .ok rd)
    (hdec : dec.decode poolDataSchema rd = .ok [Token.array [Token.tuple
      [Token.address 0, Token.uint v1, Token.address b, Token.uint v2,
       Token.uint r0, Token.uint r1]]])
    (hv1 : v1 < 2 ^ 32) (hv2 : v2 < 2 ^ 32)
    (hr0 : r0 < 2 ^ 128) (hr1 : r1 < 2 ^ 128) :
    get_v2_pool_data_batch_request mw dec pool =
      some (.ok (),
        { address := pool.address, token_a := 0, token_a_decimals := v1 % 256,
          token_b := b, token_b_decimals := v2 % 256,
          reserve_0 := r0, reserve_1 := r1 }) ∧
    ∀ (dec' : AbiDecoder) (t : Token), t.into_tuple = none →
      dec'.decode poolDataSchema rd = .ok [Token.array [t]] →
      get_v2_pool_data_batch_request mw dec' pool =
        some (.error (.batchRequestError pool.address), pool) := by
  constructor
  · rw [get_v2_run mw dec pool dep rd _ hd hc hdec]
    have hp := (populate_ok_iff pool
      { address := pool.address, token_a := 0, token_a_decimals := v1 % 256,
          token_b := b, token_b_decimals := v2 % 256, reserve_0 := r0,
          reserve_1 := r1 }
      [Token.address 0, Token.uint v1, Token.address b, Token.uint v2,
       Token.uint r0, Token.uint r1]).2
      ⟨0, v1, b, v2, r0, r1, rfl, rfl, hv1, rfl, rfl, hv2, rfl, hr0, rfl, hr1, rfl⟩
    simp only [singleOuterLoop, Token.into_array, singleTupleLoop, singleTupleStep,
      Token.into_tuple, hp]
  · intro dec' t ht hdec'
    rw [get_v2_run mw dec' pool dep rd _ hd hc hdec']
    simp only [singleOuterLoop, Token.into_array, singleTupleLoop, singleTupleStep, ht]

/-- C1, witness for the amended theorem at a concrete zero-sentinel
response. -/
theorem C1_zero_sentinel_single_path_witness :
    get_v2_pool_data_batch_request mwOk (decOf [Token.array [Token.tuple
      [Token.address 0, Token.uint 7, Token.address 9, Token.uint 8,
       Token.uint 70, Token.uint 80]]]) samplePool =
      some (.ok (),
        { address := samplePool.address, token_a := 0,
          token_a_decimals := 7 % 256, token_b := 9, token_b_decimals := 8 % 256,
          reserve_0 := 70, reserve_1 := 80 }) :=
  (C1_zero_sentinel_single_path mwOk (decOf [Token.array [Token.tuple
      [Token.address 0, Token.uint 7, Token.address 9, Token.uint 8,
       Token.uint 70, Token.uint 80]]]) samplePool 0 [] 9 7 8 70 80
    rfl rfl rfl (by decide) (by decide) (by decide) (by decide)).1

/-- C2: in the bulk populate, a successfully decoded response never raises
an error, and every tuple whose first field is the zero address leaves the
record at its position completely unmodified. -/
theorem C2_bulk_zero_sentinel_skips (mw : Middleware) (dec : AbiDecoder)
    (amms : List AMM) (dep : Nat) (rd : List Nat) (ts : List Token)
    (res : Except AMMError Unit) (amms' : List AMM)
    (hd : mw.deploy .poolDataBatchRequest (bulkConstructorArgs amms) = .ok dep)
    (hc : mw.callRaw dep = .ok rd)
    (hdec : dec.decode poolDataSchema rd = .ok ts)
    (hrun : get_amm_data_batch_request mw dec amms = some (res, amms')) :
    res = .ok () ∧
    ∀ j td, (flatTuples ts).get? j = some td →
      td.get? 0 = some (Token.address 0) →
      amms'.get? j = amms.get? j := by
  rw [get_amm_data_run mw dec amms dep rd ts hd hc hdec] at hrun
  cases em : mergeTuples amms 0 (flatTuples ts) <;> simp only [em] at hrun
  · exact absurd hrun (by simp)
  · rename_i pr
    obtain ⟨amms1, idx1⟩ := pr
    simp only [Option.some.injEq, Prod.mk.injEq] at hrun
    obtain ⟨hres, hamms⟩ := hrun
    subst hres
    subst hamms
    refine ⟨rfl, fun j td hj hz => ?_⟩
    have hspec := mergeTuples_some_spec (flatTuples ts) amms 0 amms1 idx1 em
    rw [hspec.2.2 j, positionalUpdate_zero]
    simp only [hj]
    cases amms.get? j
    · rfl
    · rename_i a
      simp [updateOne_zero a td hz]

/-- C2, witness at a concrete one-record batch with a zero-sentinel
response. -/
theorem C2_bulk_zero_sentinel_skips_witness :
    get_amm_data_batch_request mwOk (decOf [Token.array [zeroTuple]]) sampleAmms =
      some (.ok (), sampleAmms) ∧ sampleAmms.get? 0 = sampleAmms.get? 0 :=
  ⟨rfl, (C2_bulk_zero_sentinel_skips mwOk (decOf [Token.array [zeroTuple]])
    sampleAmms 0 [] [Token.array [zeroTuple]] (.ok ()) sampleAmms
    rfl rfl rfl rfl).2 0 zeroTupleFields rfl rfl⟩

/-- C3: a successful bulk populate preserves the length (and hence the
order and positions) of the record list, and the record at each position is
a function of that record and the decoded tuple at the same position
only. -/
theorem C3_bulk_positional_frame (mw : Middleware) (dec : AbiDecoder)
    (amms : List AMM) (dep : Nat) (rd : List Nat) (ts : List Token)
    (amms' : List AMM)
    (hd : mw.deploy .poolDataBatchRequest (bulkConstructorArgs amms) = .ok dep)
    (hc : mw.callRaw dep = .ok rd)
    (hdec : dec.decode poolDataSchema rd = .ok ts)
    (hrun : get_amm_data_batch_request mw dec amms = some (.ok (), amms')) :
    amms'.length = amms.length ∧
    ∀ j, amms'.get? j =
      match (flatTuples ts).get? j with
      | some td => (amms.get? j).map fun a => updateOne a td
      | none => amms.get? j := by
  rw [get_amm_data_run mw dec amms dep rd ts hd hc hdec] at hrun
  cases em : mergeTuples amms 0 (flatTuples ts) <;> simp only [em] at hrun
  · exact absurd hrun (by simp)
  · rename_i pr
    obtain ⟨amms1, idx1⟩ := pr
    simp only [Option.some.injEq, Prod.mk.injEq, true_and] at hrun
    subst hrun
    have hspec := mergeTuples_some_spec (flatTuples ts) amms 0 amms1 idx1 em
    exact ⟨hspec.2.1, fun j => by rw [hspec.2.2 j, positionalUpdate_zero]⟩

/-- C3, witness at a concrete one-record batch with a live tuple. -/
theorem C3_bulk_positional_frame_witness :
    get_amm_data_batch_request mwOk (decOf [Token.array [Token.tuple liveTupleFields]])
      sampleAmms = some (.ok (), [AMM.uniswapV2Pool sampleLivePool]) ∧
    ([AMM.uniswapV2Pool sampleLivePool] : List AMM).length = sampleAmms.length :=
  ⟨rfl, (C3_bulk_positional_frame mwOk (decOf [Token.array [Token.tuple liveTupleFields]])
    sampleAmms 0 [] [Token.array [Token.tuple liveTupleFields]]
    [AMM.uniswapV2Pool sampleLivePool] rfl rfl rfl rfl).1⟩

/-- C4: on a tuple with a non-zero token-A address the populate step is
all-or-nothing: a successful run replaces exactly the six decoded fields
(keeping the pool address), and a bulk-loop iteration either leaves the
record list untouched or replaces the target record with such a fully
populated pool. -/
theorem C4_six_field_all_or_nothing :
    (∀ (p p' : UniswapV2Pool) (td : List Token),
       populate_pool_data_from_tokens p td = RRes.ok p' →
       ∃ a v1 b v2 r0 r1,
         td.get? 0 = some (.address a) ∧ td.get? 1 = some (.uint v1) ∧
         td.get? 2 = some (.address b) ∧ td.get? 3 = some (.uint v2) ∧
         td.get? 4 = some (.uint r0) ∧ td.get? 5 = some (.uint r1) ∧
         p' = { address := p.address, token_a := a, token_a_decimals := v1 % 256,
                token_b := b, token_b_decimals := v2 % 256,
                reserve_0 := r0, reserve_1 := r1 }) ∧
    (∀ (amms amms1 : List AMM) (idx : Nat) (td : List Token),
       processTuple amms idx td = some amms1 →
       amms1 = amms ∨
       ∃ p p', amms.get? idx = some (.uniswapV2Pool p) ∧
         populate_pool_data_from_tokens p td = RRes.ok p' ∧
         amms1 = amms.set idx (.uniswapV2Pool p')) := by
  constructor
  · intro p p' td h
    obtain ⟨a, v1, b, v2, r0, r1, h0, h1, hv1, h2, h3, hv2, h4, hr0, h5, hr1, rfl⟩ :=
      (populate_ok_iff p p' td).1 h
    exact ⟨a, v1, b, v2, r0, r1, h0, h1, h2, h3, h4, h5, rfl⟩
  · exact fun amms amms1 idx td h => processTuple_some_cases amms amms1 idx td h

/-- C4, witness: the populate step on a concrete live tuple replaces all
six fields, and the bulk-loop iteration writes the populated pool back. -/
theorem C4_six_field_all_or_nothing_witness :
    processTuple sampleAmms 0 liveTupleFields = some [AMM.uniswapV2Pool sampleLivePool] ∧
    ([AMM.uniswapV2Pool sampleLivePool] = sampleAmms ∨
      ∃ p p', sampleAmms.get? 0 = some (.uniswapV2Pool p) ∧
        populate_pool_data_from_tokens p liveTupleFields = RRes.ok p' ∧
        [AMM.uniswapV2Pool sampleLivePool] = sampleAmms.set 0 (.uniswapV2Pool p')) :=
  ⟨rfl, C4_six_field_all_or_nothing.2 sampleAmms [AMM.uniswapV2Pool sampleLivePool]
    0 liveTupleFields rfl⟩

/-- C5: a bulk call that returns any error leaves the caller's records
exactly as supplied; a single-record call that returns a staging, delivery
or decode error leaves the pool record exactly as supplied; and on a
schema-shaped decoded response the single-record call cannot return an
error at all. -/
theorem C5_no_mutation_on_failure (mw : Middleware) (dec : AbiDecoder) :
    (∀ (amms amms' : List AMM) (e : AMMError),
       get_amm_data_batch_request mw dec amms = some (.error e, amms') →
       amms' = amms) ∧
    (∀ (pool pool' : UniswapV2Pool) (e : AMMError),
       isStagingDeliveryOrDecode e = true →
       get_v2_pool_data_batch_request mw dec pool = some (.error e, pool') →
       pool' = pool) ∧
    (∀ (pool pool' : UniswapV2Pool) (e : AMMError) (dep : Nat) (rd : List Nat)
       (ts : List Token),
       mw.deploy .poolDataBatchRequest
         (Token.tuple [Token.array [Token.address pool.address]]) = .ok dep →
       mw.callRaw dep = .ok rd →
       dec.decode poolDataSchema rd = .ok ts →
       schemaShapedResponse ts = true →
       get_v2_pool_data_batch_request mw dec pool ≠ some (.error e, pool')) := by
  refine ⟨?_, ?_, ?_⟩
  · intro amms amms' e h
    unfold get_amm_data_batch_request bulkDecodeAndPopulate at h
    cases hd : mw.deploy .poolDataBatchRequest (bulkConstructorArgs amms) <;>
      simp only [hd] at h
    · simp only [Option.some.injEq, Prod.mk.injEq] at h
      exact h.2.symm
    · rename_i dep
      cases hc : mw.callRaw dep <;> simp only [hc] at h
      · simp only [Option.some.injEq, Prod.mk.injEq] at h
        exact h.2.symm
      · rename_i rd
        cases hdec : dec.decode poolDataSchema rd <;> simp only [hdec] at h
        · simp only [Option.some.injEq, Prod.mk.injEq] at h
          exact h.2.symm
        · rename_i ts
          cases em : processOuter amms 0 ts <;> simp only [em] at h
          · exact absurd h (by simp)
          · rename_i pr
            obtain ⟨amms1, idx1⟩ := pr
            simp at h
  · intro pool pool' e hkind h
    unfold get_v2_pool_data_batch_request at h
    cases hd : mw.deploy .poolDataBatchRequest
        (Token.tuple [Token.array [Token.address pool.address]]) <;>
      simp only [hd] at h
    · simp only [Option.some.injEq, Prod.mk.injEq] at h
      exact h.2.symm
    · rename_i dep
      cases hc : mw.callRaw dep <;> simp only [hc] at h
      · simp only [Option.some.injEq, Prod.mk.injEq] at h
        exact h.2.symm
      · rename_i rd
        cases hdec : dec.decode poolDataSchema rd <;> simp only [hdec] at h
        · simp only [Option.some.injEq, Prod.mk.injEq] at h
          exact h.2.symm
        · rename_i ts
          obtain ⟨a, rfl⟩ := singleOuterLoop_error_shape ts pool e pool' h
          simp [isStagingDeliveryOrDecode] at hkind
  · intro pool pool' e dep rd ts hd hc hdec hsh hcontra
    rw [get_v2_run mw dec pool dep rd ts hd hc hdec] at hcontra
    rcases singleOuterLoop_shaped_cases ts pool hsh with hc1 | ⟨pool1, hc1⟩ <;>
      rw [hc1] at hcontra <;> simp at hcontra

/-- C5, witness: a concrete staging failure on a one-record bulk batch
leaves the record list untouched. -/
theorem C5_no_mutation_on_failure_witness :
    get_amm_data_batch_request mwDeployFail (decOf []) sampleAmms =
      some (.error (.contractError "get_amm_data_batch_request" 1 3), sampleAmms) ∧
    sampleAmms = sampleAmms :=
  ⟨rfl, (C5_no_mutation_on_failure mwDeployFail (decOf [])).1 sampleAmms sampleAmms
    (.contractError "get_amm_data_batch_request" 1 3) rfl⟩

/-- C6: with successful staging, delivery and decoding, discovery returns
exactly the non-zero addresses of the decoded arrays, in encounter order,
with the zero entries dropped and no error for any entry. -/
theorem C6_discovery_nonzero_in_order (mw : Middleware) (dec : AbiDecoder)
    (factory fromIdx step : Nat) (dep : Nat) (rd : List Nat) (ts : List Token)
    (hd : mw.deploy .pairsBatchRequest
      (pairsConstructorArgs factory fromIdx step) = .ok dep)
    (hc : mw.callRaw dep = .ok rd)
    (hdec : dec.decode pairsSchema rd = .ok ts) :
    get_pairs_batch_request mw dec factory fromIdx step =
      .ok (specDiscoveredAddresses ts) := by
  unfold get_pairs_batch_request
  simp only [hd, hc, hdec, collectPairs_eq_spec]

/-- C6, witness: a concrete decoded array with a zero entry in the middle
yields exactly the two non-zero addresses, in order. -/
theorem C6_discovery_nonzero_in_order_witness :
    get_pairs_batch_request mwOk
      (decOf [Token.array [Token.address 5, Token.address 0, Token.address 9]])
      1 0 3 =
      .ok (specDiscoveredAddresses
        [Token.array [Token.address 5, Token.address 0, Token.address 9]]) ∧
    specDiscoveredAddresses
      [Token.array [Token.address 5, Token.address 0, Token.address 9]] = [5, 9] :=
  ⟨C6_discovery_nonzero_in_order mwOk
    (decOf [Token.array [Token.address 5, Token.address 0, Token.address 9]])
    1 0 3 0 []
    [Token.array [Token.address 5, Token.address 0, Token.address 9]]
    rfl rfl rfl, rfl⟩

/-- C7: for a fixed response buffer the decode-and-merge stage of the bulk
operation is deterministic (equal record lists give equal results) and
idempotent (applying it to its own output reproduces the output, result
included). -/
theorem C7_decode_merge_idempotent (dec : AbiDecoder) (rd : List Nat) :
    (∀ amms1 amms2 : List AMM, amms1 = amms2 →
       bulkDecodeAndPopulate dec rd amms1 = bulkDecodeAndPopulate dec rd amms2) ∧
    (∀ (amms amms' : List AMM) (r : Except AMMError Unit),
       bulkDecodeAndPopulate dec rd amms = some (r, amms') →
       bulkDecodeAndPopulate dec rd amms' = some (r, amms')) := by
  constructor
  · intro a b h
    rw [h]
  · intro amms amms' r h
    unfold bulkDecodeAndPopulate at h ⊢
    cases hdec : dec.decode poolDataSchema rd <;> simp only [hdec] at h ⊢
    · simp only [Option.some.injEq, Prod.mk.injEq] at h
      obtain ⟨rfl, rfl⟩ := h
      rfl
    · rename_i ts
      rw [processOuter_eq_mergeTuples] at h ⊢
      cases em : mergeTuples amms 0 (flatTuples ts) <;> simp only [em] at h
      · exact absurd h (by simp)
      · rename_i pr
        obtain ⟨amms1, idx1⟩ := pr
        simp only [Option.some.injEq, Prod.mk.injEq] at h
        obtain ⟨rfl, rfl⟩ := h
        simp only [mergeTuples_idem (flatTuples ts) amms 0 amms1 idx1 em]

/-- C7, witness: applying the decode-and-merge stage twice at a concrete
response reproduces the once-applied result. -/
theorem C7_decode_merge_idempotent_witness :
    bulkDecodeAndPopulate (decOf [Token.array [Token.tuple liveTupleFields]]) []
      sampleAmms = some (.ok (), [AMM.uniswapV2Pool sampleLivePool]) ∧
    bulkDecodeAndPopulate (decOf [Token.array [Token.tuple liveTupleFields]]) []
      [AMM.uniswapV2Pool sampleLivePool] =
      some (.ok (), [AMM.uniswapV2Pool sampleLivePool]) :=
  ⟨rfl, (C7_decode_merge_idempotent (decOf [Token.array [Token.tuple liveTupleFields]])
    []).2 sampleAmms [AMM.uniswapV2Pool sampleLivePool] (.ok ()) rfl⟩

/-- C8, counterexample: a decode failure is returned as the bare converted
ABI error, which carries neither an operation name nor a representative
address, contrary to the claim that every returned error carries both. -/
theorem C8_cex_decode_error_lacks_context :
    get_pairs_batch_request mwOk decFail 1 0 3 = .error (.abiError 5) ∧
    errorOpName (.abiError 5) = none ∧ errorAddress (.abiError 5) = none :=
  ⟨rfl, rfl, rfl⟩

/-- C8, amended: every staging and delivery error carries the operation's
name, the batch's representative address (the factory for discovery, the
first record's address for bulk, the requested pool's address for single)
and the underlying transport error, and the two are distinct error kinds;
decode failures carry only the converted ABI error. -/
theorem C8_staging_delivery_context (mw : Middleware) (dec : AbiDecoder) :
    (∀ factory fromIdx step e,
       mw.deploy .pairsBatchRequest (pairsConstructorArgs factory fromIdx step) =
         .error e →
       get_pairs_batch_request mw dec factory fromIdx step =
         .error (.contractError "get_pairs_batch_request" factory e)) ∧
    (∀ factory fromIdx step dep e,
       mw.deploy .pairsBatchRequest (pairsConstructorArgs factory fromIdx step) =
         .ok dep →
       mw.callRaw dep = .error e →
       get_pairs_batch_request mw dec factory fromIdx step =
         .error (.providerError "get_pairs_batch_request" factory e)) ∧
    (∀ (amms : List AMM) (a0 : AMM) (e : Nat), amms.head? = some a0 →
       mw.deploy .poolDataBatchRequest (bulkConstructorArgs amms) = .error e →
       get_amm_data_batch_request mw dec amms =
         some (.error (.contractError "get_amm_data_batch_request" a0.address e),
           amms)) ∧
    (∀ (amms : List AMM) (a0 : AMM) (dep e : Nat), amms.head? = some a0 →
       mw.deploy .poolDataBatchRequest (bulkConstructorArgs amms) = .ok dep →
       mw.callRaw dep = .error e →
       get_amm_data_batch_request mw dec amms =
         some (.error (.providerError "get_amm_data_batch_request" a0.address e),
           amms)) ∧
    (∀ (pool : UniswapV2Pool) (e : Nat),
       mw.deploy .poolDataBatchRequest
         (Token.tuple [Token.array [Token.address pool.address]]) = .error e →
       get_v2_pool_data_batch_request mw dec pool =
         some (.error (.contractError "get_v2_pool_data_batch_request"
           pool.address e), pool)) ∧
    (∀ (pool : UniswapV2Pool) (dep e : Nat),
       mw.deploy .poolDataBatchRequest
         (Token.tuple [Token.array [Token.address pool.address]]) = .ok dep →
       mw.callRaw dep = .error e →
       get_v2_pool_data_batch_request mw dec pool =
         some (.error (.providerError "get_v2_pool_data_batch_request"
           pool.address e), pool)) ∧
    (∀ op1 a1 e1 op2 a2 e2,
       AMMError.contractError op1 a1 e1 ≠ AMMError.providerError op2 a2 e2) := by
  refine ⟨?_, ?_, ?_, ?_, ?_, ?_, ?_⟩
  · intro factory fromIdx step e hd
    unfold get_pairs_batch_request
    simp only [hd]
  · intro factory fromIdx step dep e hd hc
    unfold get_pairs_batch_request
    simp only [hd, hc]
  · intro amms a0 e hh hd
    unfold get_amm_data_batch_request
    simp only [hd, batchStart, hh]
    simp
  · intro amms a0 dep e hh hd hc
    unfold get_amm_data_batch_request
    simp only [hd, hc, batchStart, hh]
    simp
  · intro pool e hd
    unfold get_v2_pool_data_batch_request
    simp only [hd]
  · intro pool dep e hd hc
    unfold get_v2_pool_data_batch_request
    simp only [hd, hc]
  · intro op1 a1 e1 op2 a2 e2 hcontra
    exact absurd hcontra (by simp)

/-- C8, witness: a concrete staging failure of discovery carries the
operation name, the factory address and the transport error code. -/
theorem C8_staging_delivery_context_witness :
    get_pairs_batch_request mwDeployFail (decOf []) 1 0 3 =
      .error (.contractError "get_pairs_batch_request" 1 3) :=
  (C8_staging_delivery_context mwDeployFail (decOf [])).1 1 0 3 3 rfl

/-- C9, counterexample: a decoded response holding one more tuple than
there are input records does not panic when that tuple's token-A is the
zero address: the call returns success, contrary to the claim that an
excess of tuples panics. -/
theorem C9_cex_excess_zero_tuple_no_panic :
    get_amm_data_batch_request mwOk (decOf [Token.array [zeroTuple]]) [] =
      some (.ok (), []) := rfl

/-- C9, amended: with in-range decoded tuples, the bulk populate panics
(models the `.expect` on an out-of-bounds index) exactly when some tuple
with a non-zero token-A address sits at a position at or beyond the number
of input records; when the tuple count is at most the number of input
records, no panic occurs and the call returns success. -/
theorem C9_bulk_panic_bound (mw : Middleware) (dec : AbiDecoder)
    (amms : List AMM) (dep : Nat) (rd : List Nat) (ts : List Token)
    (hd : mw.deploy .poolDataBatchRequest (bulkConstructorArgs amms) = .ok dep)
    (hc : mw.callRaw dep = .ok rd)
    (hdec : dec.decode poolDataSchema rd = .ok ts)
    (hwf : (flatTuples ts).all inRangePoolTuple = true) :
    ((∃ j td, (flatTuples ts).get? j = some td ∧ amms.length ≤ j ∧
        tupleFirstNonZero td = true) →
      get_amm_data_batch_request mw dec amms = none) ∧
    ((flatTuples ts).length ≤ amms.length →
      ∃ amms', get_amm_data_batch_request mw dec amms = some (.ok (), amms')) := by
  have hall : ∀ td ∈ flatTuples ts, inRangePoolTuple td = true := by
    simpa [List.all_eq_true] using hwf
  constructor
  · rintro ⟨j, td, hj, hoob, hnz⟩
    rw [get_amm_data_run mw dec amms dep rd ts hd hc hdec]
    simp only [mergeTuples_none_of_oob (flatTuples ts) amms 0 hall
      ⟨j, td, hj, by omega, hnz⟩]
  · intro hle
    obtain ⟨amms1, hm⟩ :=
      mergeTuples_ok_of_inRange (flatTuples ts) amms 0 hall (by omega)
    refine ⟨amms1, ?_⟩
    rw [get_amm_data_run mw dec amms dep rd ts hd hc hdec]
    simp only [hm]

/-- C9, witness: one non-zero tuple against an empty record list panics
(result is the panic outcome, not an error). -/
theorem C9_bulk_panic_bound_witness :
    get_amm_data_batch_request mwOk
      (decOf [Token.array [Token.tuple liveTupleFields]]) [] = none :=
  (C9_bulk_panic_bound mwOk (decOf [Token.array [Token.tuple liveTupleFields]])
    [] 0 [] [Token.array [Token.tuple liveTupleFields]] rfl rfl rfl
    (by decide)).1 ⟨0, liveTupleFields, rfl, by decide, by decide⟩

/-- C10: a single-record response that decodes to an empty array of tuples
makes the call return success with the pool record completely unchanged. -/
theorem C10_empty_array_single_success (mw : Middleware) (dec : AbiDecoder)
    (pool : UniswapV2Pool) (dep : Nat) (rd : List Nat)
    (hd : mw.deploy .poolDataBatchRequest
      (Token.tuple [Token.array [Token.address pool.address]]) = .ok dep)
    (hc : mw.callRaw dep = .ok rd)
    (hdec : dec.decode poolDataSchema rd = .ok [Token.array []]) :
    get_v2_pool_data_batch_request mw dec pool = some (.ok (), pool) := by
  rw [get_v2_run mw dec pool dep rd _ hd hc hdec]
  rfl

/-- C10, witness at a concrete empty decoded array. -/
theorem C10_empty_array_single_success_witness :
    get_v2_pool_data_batch_request mwOk (decOf [Token.array []]) samplePool =
      some (.ok (), samplePool) :=
  C10_empty_array_single_success mwOk (decOf [Token.array []]) samplePool 0 []
    rfl rfl rfl

end AmmsBatch

